import Mathlib

/-!
Shallow embedding of the game-state engine of `src/snake_game.py`
(terminal Snake game) and proofs of its specified properties.

Modelling choices:
* `Pos` is an integer pair `(row, col)`; Python tuples compare by value.
* `Direction` mirrors the `Direction(Enum)` with its `(dy, dx)` values.
* `GameState` holds the mutable fields of `SnakeGame` that the core
  engine touches: `snake` (the deque, head first), `direction`, `score`,
  `food`, `game_over`, and the curses tick interval `timeout` (set via
  `self.stdscr.timeout(...)`).
* The board dimensions `game_height`/`game_width` are passed as explicit
  parameters `H`, `W` (the source fixes them once in `setup_screen`).
* Randomness: `random.randint` draws inside `spawn_food`'s `while True`
  loop are modelled by an explicit finite list of candidate positions
  `rng`; `spawn_food` scans it for the first candidate not in the snake.
  A `none` result means the loop did not exit within the supplied draws
  (in the source it would keep sampling).
* Python exceptions (indexing an empty deque) are modelled as `none`.
-/

abbrev Pos : Type := ℤ × ℤ

/-- `class Direction(Enum)` of the source. -/
inductive Direction : Type
  | up
  | down
  | left
  | right
deriving DecidableEq

/-- The `(dy, dx)` value carried by each `Direction` enum member. -/
def Direction.value : Direction → ℤ × ℤ
  | .up => (-1, 0)
  | .down => (1, 0)
  | .left => (0, -1)
  | .right => (0, 1)

/-- The `opposite_directions` dict of `handle_input` (lines 102-107). -/
def opposite_directions : Direction → Direction
  | .up => .down
  | .down => .up
  | .left => .right
  | .right => .left

/-- The mutable game state owned by `SnakeGame`. -/
structure GameState where
  snake : List Pos
  direction : Direction
  score : ℕ
  food : Pos
  game_over : Bool
  timeout : ℤ
deriving DecidableEq

/-- `spawn_food` (lines 70-78): resample until the drawn cell is not in
the snake.  The random draws are the list `cands`; `none` means the
`while True` loop did not terminate within the supplied draws. -/
def spawn_food (snake : List Pos) : List Pos → Option Pos
  | [] => none
  | c :: cands => if c ∈ snake then spawn_food snake cands else some c

/-- The tick interval set on food consumption (line 146):
`self.stdscr.timeout(max(50, 100 - self.score // 50))`, as a function of
the score (a natural number, so Python floor division is `Int` division
of a nonnegative numerator). -/
def tickInterval (score : ℕ) : ℤ := max 50 (100 - (score : ℤ) / 50)

/-- `reset_game` (lines 49-68): snake of length 3 centered on the board,
direction RIGHT, score 0, fresh food, `game_over = False`.  It does not
touch the curses timeout, so that field is carried over from `s`. -/
def reset_game (H W : ℤ) (rng : List Pos) (s : GameState) : Option GameState :=
  match spawn_food [(H / 2, W / 2), (H / 2, W / 2 - 1), (H / 2, W / 2 - 2)] rng with
  | none => none
  | some f =>
      some { s with
             snake := [(H / 2, W / 2), (H / 2, W / 2 - 1), (H / 2, W / 2 - 2)],
             direction := .right,
             score := 0,
             food := f,
             game_over := false }

/-- The direction-change logic of `handle_input` (lines 89-110): `nd` is
the `new_direction` decoded from the key (or `none` for an unmapped
key); the new direction is adopted unless it is the opposite of the
current one. -/
def handle_input (nd : Option Direction) (s : GameState) : GameState :=
  match nd with
  | none => s
  | some d => if d ≠ opposite_directions s.direction then { s with direction := d } else s

/-- The candidate new head of `update_snake` (lines 119-125):
`self.snake[0]` plus `self.direction.value`. -/
def new_head (s : GameState) : Pos :=
  (s.snake.headI.1 + (Direction.value s.direction).1,
   s.snake.headI.2 + (Direction.value s.direction).2)

/-- A position lies on the playable board: row in `[0, H)`, col in `[0, W)`. -/
def inBoard (H W : ℤ) (p : Pos) : Prop :=
  0 ≤ p.1 ∧ p.1 < H ∧ 0 ≤ p.2 ∧ p.2 < W

instance (H W : ℤ) (p : Pos) : Decidable (inBoard H W p) := by
  unfold inBoard
  infer_instance

/-- `update_snake` (lines 114-149): no-op when `game_over`; otherwise
compute the new head, end the game on wall or self collision, else
prepend the head and either grow (food eaten: score +10, respawn food,
retighten the timeout) or drop the tail.  `self.snake[0]` on an empty
deque would raise, modelled as `none`. -/
def update_snake (H W : ℤ) (rng : List Pos) (s : GameState) : Option GameState :=
  if s.game_over then some s
  else if s.snake = [] then none
  else if (new_head s).1 < 0 ∨ H ≤ (new_head s).1 ∨ (new_head s).2 < 0 ∨ W ≤ (new_head s).2 then
    some { s with game_over := true }
  else if new_head s ∈ s.snake then
    some { s with game_over := true }
  else if new_head s = s.food then
    match spawn_food (new_head s :: s.snake) rng with
    | none => none
    | some f =>
        some { s with
               snake := new_head s :: s.snake,
               score := s.score + 10,
               food := f,
               timeout := tickInterval (s.score + 10) }
  else
    some { s with snake := (new_head s :: s.snake).dropLast }

/-- The restart branch of `handle_game_over` (lines 198-211): on 'r',
`reset_game()` followed by `self.stdscr.timeout(100)`. -/
def handle_game_over (H W : ℤ) (rng : List Pos) (s : GameState) : Option GameState :=
  match reset_game H W rng s with
  | none => none
  | some s1 => some { s1 with timeout := 100 }

/-- States reachable from a freshly reset state (board `H × W`) by any
sequence of input handling (`apply_intent`) and `update_snake` (`step`)
calls, each `step` with an arbitrary stream of random draws. -/
inductive Reachable (H W : ℤ) : GameState → Prop
  | reset (s0 : GameState) (rng : List Pos) (s : GameState) :
      reset_game H W rng s0 = some s → Reachable H W s
  | input (s : GameState) (nd : Option Direction) :
      Reachable H W s → Reachable H W (handle_input nd s)
  | step (s : GameState) (rng : List Pos) (s' : GameState) :
      Reachable H W s → update_snake H W rng s = some s' → Reachable H W s'

/-! ### Concrete states used to instantiate the theorems -/

/-- A throwaway pre-reset state (`SnakeGame.__init__` runs `setup_screen`,
which sets the timeout to 100, before the first `reset_game`). -/
def s0 : GameState :=
  { snake := [], direction := .right, score := 0, food := (0, 0), game_over := false,
    timeout := 100 }

/-- The state produced by `reset_game` on a 6 × 38 board when the first
random draw is `(0, 0)`. -/
def sInit : GameState :=
  { snake := [(3, 19), (3, 18), (3, 17)], direction := .right, score := 0, food := (0, 0),
    game_over := false, timeout := 100 }

/-- A running state about to make a plain (non-eating) move on a 5 × 5 board. -/
def sC1 : GameState :=
  { snake := [(2, 2), (2, 1)], direction := .right, score := 0, food := (0, 0),
    game_over := false, timeout := 100 }

/-- The state after the plain move of `sC1`. -/
def sC1' : GameState :=
  { snake := [(2, 3), (2, 2)], direction := .right, score := 0, food := (0, 0),
    game_over := false, timeout := 100 }

/-- Scenario C of the spec: head at `(0, 5)` moving up. -/
def sC4 : GameState :=
  { snake := [(0, 5), (1, 5), (2, 5)], direction := .up, score := 0, food := (4, 4),
    game_over := false, timeout := 100 }

/-- A running state about to eat the food at `(0, 1)` on a 5 × 5 board. -/
def sC7 : GameState :=
  { snake := [(0, 0)], direction := .right, score := 0, food := (0, 1),
    game_over := false, timeout := 100 }

/-- The state after `sC7` eats the food, the next draw being `(3, 3)`. -/
def sC7' : GameState :=
  { snake := [(0, 1), (0, 0)], direction := .right, score := 10, food := (3, 3),
    game_over := false, timeout := 100 }

/-- An ended (game-over) state. -/
def sE : GameState :=
  { snake := [(1, 1)], direction := .right, score := 40, food := (2, 2), game_over := true,
    timeout := 55 }

/-! ### Helper lemmas -/

theorem spawn_food_not_mem {snake cands : List Pos} {f : Pos}
    (h : spawn_food snake cands = some f) : f ∉ snake := by
  induction cands with
  | nil => simp [spawn_food] at h
  | cons c cs ih =>
      rw [spawn_food] at h
      split_ifs at h with hc
      · exact ih h
      · cases h
        exact hc

theorem handle_input_frame (nd : Option Direction) (s : GameState) :
    (handle_input nd s).snake = s.snake ∧ (handle_input nd s).food = s.food ∧
      (handle_input nd s).score = s.score ∧ (handle_input nd s).game_over = s.game_over := by
  cases nd with
  | none => exact ⟨rfl, rfl, rfl, rfl⟩
  | some d =>
      simp only [handle_input]
      split_ifs <;> exact ⟨rfl, rfl, rfl, rfl⟩

theorem reset_game_inv {H W : ℤ} {rng : List Pos} {s0 s : GameState}
    (h : reset_game H W rng s0 = some s) :
    s.snake = [(H / 2, W / 2), (H / 2, W / 2 - 1), (H / 2, W / 2 - 2)] ∧
      s.direction = .right ∧ s.score = 0 ∧ s.game_over = false ∧
      spawn_food [(H / 2, W / 2), (H / 2, W / 2 - 1), (H / 2, W / 2 - 2)] rng = some s.food := by
  unfold reset_game at h
  rcases hsp : spawn_food [(H / 2, W / 2), (H / 2, W / 2 - 1), (H / 2, W / 2 - 2)] rng with _ | f
  · rw [hsp] at h
    cases h
  · rw [hsp] at h
    cases h
    exact ⟨rfl, rfl, rfl, rfl, rfl⟩

/-- Exhaustive description of the successful outcomes of `update_snake`. -/
theorem update_snake_inv {H W : ℤ} {rng : List Pos} {s s' : GameState}
    (h : update_snake H W rng s = some s') :
    (s.game_over = true ∧ s' = s) ∨
    (s.game_over = false ∧ s' = { s with game_over := true }) ∨
    (s.game_over = false ∧ s.snake ≠ [] ∧ inBoard H W (new_head s) ∧ new_head s ∉ s.snake ∧
      ((new_head s = s.food ∧ ∃ f, spawn_food (new_head s :: s.snake) rng = some f ∧
          s' = { s with snake := new_head s :: s.snake, score := s.score + 10, food := f,
                        timeout := tickInterval (s.score + 10) }) ∨
       (new_head s ≠ s.food ∧ s' = { s with snake := (new_head s :: s.snake).dropLast }))) := by
  unfold update_snake at h
  split_ifs at h with hg hnil hwall hmem hfood
  · exact Or.inl ⟨hg, (Option.some_inj.mp h).symm⟩
  · exact Or.inr (Or.inl ⟨by simpa using hg, (Option.some_inj.mp h).symm⟩)
  · exact Or.inr (Or.inl ⟨by simpa using hg, (Option.some_inj.mp h).symm⟩)
  · rcases hsp : spawn_food (new_head s :: s.snake) rng with _ | f <;> rw [hsp] at h
    · exact absurd h (by simp)
    · refine Or.inr (Or.inr ⟨by simpa using hg, hnil, ?_, hmem,
        Or.inl ⟨hfood, f, rfl, (Option.some_inj.mp h).symm⟩⟩)
      unfold inBoard
      push_neg at hwall
      exact ⟨hwall.1, by omega, hwall.2.2.1, by omega⟩
  · refine Or.inr (Or.inr ⟨by simpa using hg, hnil, ?_, hmem,
      Or.inr ⟨hfood, (Option.some_inj.mp h).symm⟩⟩)
    unfold inBoard
    push_neg at hwall
    exact ⟨hwall.1, by omega, hwall.2.2.1, by omega⟩

/-! ### Claim theorems -/

/-- C1: for every `update_snake` call in a Running state that does not
end the game, the snake's length afterwards equals its length before
plus 1 if and only if the new head equals the pre-step food position,
and equals the length before otherwise. -/
theorem step_length_invariant (H W : ℤ) (rng : List Pos) (s s' : GameState)
    (h : update_snake H W rng s = some s')
    (hrun : s.game_over = false) (hend : s'.game_over = false) :
    (s'.snake.length = s.snake.length + 1 ↔ new_head s = s.food) ∧
      (new_head s ≠ s.food → s'.snake.length = s.snake.length) := by
  rcases update_snake_inv h with ⟨hg, _⟩ | ⟨_, hs'⟩ | ⟨_, hnil, _, _, ⟨hf, f, hsp, hs'⟩ | ⟨hf, hs'⟩⟩
  · simp [hg] at hrun
  · simp [hs'] at hend
  · subst hs'
    exact ⟨⟨fun _ => hf, fun _ => by simp⟩, fun hne => absurd hf hne⟩
  · subst hs'
    have hlen : ((new_head s :: s.snake).dropLast).length = s.snake.length := by
      simp [List.length_dropLast]
    refine ⟨?_, fun _ => hlen⟩
    show ((new_head s :: s.snake).dropLast).length = s.snake.length + 1 ↔ new_head s = s.food
    rw [hlen]
    exact ⟨fun hx => absurd hx (by omega), fun hx => absurd hx hf⟩

/-- Witness for C1: the non-eating move of `sC1` keeps the snake length at 2. -/
theorem step_length_invariant_witness : sC1'.snake.length = sC1.snake.length :=
  (step_length_invariant 5 5 [] sC1 sC1' (by decide) rfl rfl).2 (by decide)

/-- C4: in a Running state whose candidate new head leaves the board or
hits the snake, `update_snake` only sets `game_over`, leaving snake,
food and score exactly as they were. -/
theorem collision_ends_game (H W : ℤ) (rng : List Pos) (s : GameState)
    (hrun : s.game_over = false) (hne : s.snake ≠ [])
    (hcol : ¬inBoard H W (new_head s) ∨ new_head s ∈ s.snake) :
    update_snake H W rng s = some { s with game_over := true } := by
  unfold update_snake
  rw [if_neg (by simp [hrun]), if_neg hne]
  by_cases hwall : (new_head s).1 < 0 ∨ H ≤ (new_head s).1 ∨ (new_head s).2 < 0 ∨ W ≤ (new_head s).2
  · rw [if_pos hwall]
  · rw [if_neg hwall]
    have hmem : new_head s ∈ s.snake := by
      rcases hcol with hnb | hm
      · exfalso
        apply hnb
        unfold inBoard
        push_neg at hwall
        exact ⟨hwall.1, by omega, hwall.2.2.1, by omega⟩
      · exact hm
    rw [if_pos hmem]

/-- Witness for C4 (Scenario C): moving up from `(0, 5)` ends the game
and leaves everything else untouched. -/
theorem collision_ends_game_witness :
    update_snake 20 10 [] sC4 = some { sC4 with game_over := true } :=
  collision_ends_game 20 10 [] sC4 rfl (by decide) (Or.inl (by decide))

/-- C5 (evaluating the code at the failing input): once the snake covers
every board cell, no random draw from the board can pass the `not in
self.snake` test, so `spawn_food`'s `while True` loop never exits, for
any finite number of draws. -/
theorem spawn_food_full_board_loops (H W : ℤ) (snake : List Pos)
    (hfull : ∀ p : Pos, inBoard H W p → p ∈ snake)
    (cands : List Pos) (hc : ∀ c ∈ cands, inBoard H W c) :
    spawn_food snake cands = none := by
  induction cands with
  | nil => rfl
  | cons c cs ih =>
      rw [spawn_food, if_pos (hfull c (hc c (by simp)))]
      exact ih fun x hx => hc x (by simp [hx])

/-- Witness for C5: a snake filling a 1 × 3 board defeats every draw. -/
theorem spawn_food_full_board_loops_witness :
    spawn_food [((0 : ℤ), (0 : ℤ)), (0, 1), (0, 2)] [(0, 1), (0, 0)] = none :=
  spawn_food_full_board_loops 1 3 [((0 : ℤ), (0 : ℤ)), (0, 1), (0, 2)]
    (by
      rintro ⟨y, x⟩ hp
      simp only [inBoard] at hp
      simp only [List.mem_cons, List.mem_singleton, Prod.mk.injEq, List.not_mem_nil, or_false]
      omega)
    [(0, 1), (0, 0)] (by decide)

/-- C6: a Move intent with the direction opposite to the current one
leaves the state (hence the pending direction) unchanged; any other
direction is recorded for the next step. -/
theorem reversal_rejection (s : GameState) (d : Direction) :
    (d = opposite_directions s.direction → handle_input (some d) s = s) ∧
      (d ≠ opposite_directions s.direction → (handle_input (some d) s).direction = d) := by
  constructor
  · intro hd
    simp [handle_input, hd]
  · intro hd
    simp [handle_input, hd]

/-- Witness for C6: from direction Right, Left is rejected and Up is recorded. -/
theorem reversal_rejection_witness :
    handle_input (some Direction.left) s0 = s0 ∧
      (handle_input (some Direction.up) s0).direction = Direction.up :=
  ⟨(reversal_rejection s0 Direction.left).1 rfl, (reversal_rejection s0 Direction.up).2 (by decide)⟩

/-- C9: in a game-over state, `update_snake` returns the state unchanged
in every component. -/
theorem step_noop_on_ended (H W : ℤ) (rng : List Pos) (s : GameState)
    (hend : s.game_over = true) :
    update_snake H W rng s = some s := by
  unfold update_snake
  rw [if_pos hend]

/-- Witness for C9: stepping the ended state `sE` returns it verbatim. -/
theorem step_noop_on_ended_witness : update_snake 5 5 [] sE = some sE :=
  step_noop_on_ended 5 5 [] sE rfl

/-- C2: in every state reachable from a fresh reset by input handling
and steps, the snake's positions are pairwise distinct. -/
theorem reachable_snake_nodup (H W : ℤ) (s : GameState) (h : Reachable H W s) :
    s.snake.Nodup := by
  induction h with
  | reset t0 rng t hr =>
      obtain ⟨hsn, -, -, -, -⟩ := reset_game_inv hr
      rw [hsn]
      refine List.nodup_cons.mpr ⟨?_, List.nodup_cons.mpr ⟨?_, List.nodup_singleton _⟩⟩
      · intro hmm
        simp only [List.mem_cons, List.not_mem_nil, Prod.mk.injEq, true_and, or_false] at hmm
        omega
      · intro hmm
        simp only [List.mem_cons, List.not_mem_nil, Prod.mk.injEq, true_and, or_false] at hmm
        omega
  | input t nd ht ih =>
      rw [(handle_input_frame nd t).1]
      exact ih
  | step t rng t' ht hst ih =>
      rcases update_snake_inv hst with ⟨_, hs'⟩ | ⟨_, hs'⟩ |
        ⟨_, _, _, hmem, ⟨_, f, _, hs'⟩ | ⟨_, hs'⟩⟩
      · subst hs'
        exact ih
      · subst hs'
        exact ih
      · subst hs'
        exact List.nodup_cons.mpr ⟨hmem, ih⟩
      · subst hs'
        exact List.Nodup.sublist (List.dropLast_sublist _) (List.nodup_cons.mpr ⟨hmem, ih⟩)

/-- Witness for C2: the freshly reset 6 × 38 state has a duplicate-free snake. -/
theorem reachable_snake_nodup_witness : sInit.snake.Nodup :=
  reachable_snake_nodup 6 38 sInit (Reachable.reset s0 [(0, 0)] sInit (by decide))

/-- C3: in every state reachable from a fresh reset by input handling
and steps, the food position is not on the snake. -/
theorem reachable_food_not_in_snake (H W : ℤ) (s : GameState) (h : Reachable H W s) :
    s.food ∉ s.snake := by
  induction h with
  | reset t0 rng t hr =>
      obtain ⟨hsn, -, -, -, hsp⟩ := reset_game_inv hr
      rw [hsn]
      exact spawn_food_not_mem hsp
  | input t nd ht ih =>
      rw [(handle_input_frame nd t).1, (handle_input_frame nd t).2.1]
      exact ih
  | step t rng t' ht hst ih =>
      rcases update_snake_inv hst with ⟨_, hs'⟩ | ⟨_, hs'⟩ |
        ⟨_, _, _, _, ⟨_, f, hsp, hs'⟩ | ⟨hf, hs'⟩⟩
      · subst hs'
        exact ih
      · subst hs'
        exact ih
      · subst hs'
        exact spawn_food_not_mem hsp
      · subst hs'
        intro hmem2
        rcases List.mem_cons.mp ((List.dropLast_sublist _).subset hmem2) with heq | hmem3
        · exact hf heq.symm
        · exact ih hmem3

/-- Witness for C3: the freshly reset 6 × 38 state's food avoids its snake. -/
theorem reachable_food_not_in_snake_witness : sInit.food ∉ sInit.snake :=
  reachable_food_not_in_snake 6 38 sInit (Reachable.reset s0 [(0, 0)] sInit (by decide))

/-- C7: on food consumption the tick interval is set to
`max(50, 100 - score // 50)` for the updated score; as a function of the
score it is non-increasing and bounded below by 50. -/
theorem speed_scaling (H W : ℤ) (rng : List Pos) (s s' : GameState)
    (h : update_snake H W rng s = some s') (hrun : s.game_over = false)
    (heat : new_head s = s.food) (hend : s'.game_over = false) :
    s'.timeout = max 50 (100 - (s'.score : ℤ) / 50) ∧
      (∀ a b : ℕ, a ≤ b → tickInterval b ≤ tickInterval a) ∧
      ∀ a : ℕ, 50 ≤ tickInterval a := by
  refine ⟨?_, ?_, ?_⟩
  · rcases update_snake_inv h with ⟨hg, _⟩ | ⟨_, hs'⟩ |
      ⟨_, _, _, _, ⟨_, f, _, hs'⟩ | ⟨hf, _⟩⟩
    · simp [hg] at hrun
    · simp [hs'] at hend
    · subst hs'
      rfl
    · exact absurd heat hf
  · intro a b hab
    unfold tickInterval
    exact max_le_max le_rfl (by omega)
  · intro a
    exact le_max_left _ _

/-- Witness for C7: eating at score 0 sets the interval to 100, and the
interval at score 20 is at most the one at score 10. -/
theorem speed_scaling_witness :
    sC7'.timeout = max 50 (100 - (sC7'.score : ℤ) / 50) ∧
      tickInterval 20 ≤ tickInterval 10 ∧ 50 ≤ tickInterval 0 := by
  obtain ⟨h1, h2, h3⟩ := speed_scaling 5 5 [(3, 3)] sC7 sC7' (by decide) rfl (by decide) rfl
  exact ⟨h1, h2 10 20 (by norm_num), h3 0⟩

/-- C8: a restart while the game is over performs a full reset: a fresh
length-3 snake centered on the board, direction Right, score 0, status
Running, food off the snake, and the tick interval back at 100 ms. -/
theorem restart_resets (H W : ℤ) (rng : List Pos) (s s' : GameState)
    (_hend : s.game_over = true)
    (h : handle_game_over H W rng s = some s') :
    s'.snake = [(H / 2, W / 2), (H / 2, W / 2 - 1), (H / 2, W / 2 - 2)] ∧
      s'.direction = Direction.right ∧ s'.score = 0 ∧ s'.game_over = false ∧
      s'.food ∉ s'.snake ∧ s'.timeout = 100 := by
  unfold handle_game_over at h
  rcases hr : reset_game H W rng s with _ | s1
  · rw [hr] at h
    simp at h
  · rw [hr] at h
    obtain ⟨hsn, hdir, hsc, hgo, hsp⟩ := reset_game_inv hr
    have hs' : s' = { s1 with timeout := 100 } := (Option.some_inj.mp h).symm
    subst hs'
    refine ⟨?_, ?_, ?_, ?_, ?_, rfl⟩
    · exact hsn
    · exact hdir
    · exact hsc
    · exact hgo
    · show s1.food ∉ s1.snake
      rw [hsn]
      exact spawn_food_not_mem hsp

/-- Witness for C8: restarting the ended state `sE` on a 6 × 38 board
with first draw `(0, 0)` yields exactly the documented initial values. -/
theorem restart_resets_witness :
    sInit.snake = [((6 : ℤ) / 2, (38 : ℤ) / 2), (6 / 2, 38 / 2 - 1), (6 / 2, 38 / 2 - 2)] ∧
      sInit.direction = Direction.right ∧ sInit.score = 0 ∧ sInit.game_over = false ∧
      sInit.food ∉ sInit.snake ∧ sInit.timeout = 100 :=
  restart_resets 6 38 [(0, 0)] sE sInit rfl (by decide)

/-- C10: in every reachable state of a board of at least the documented
minimum size, the whole snake lies on the board; hence a candidate head
that fails the boundary check can never also occur in the snake. -/
theorem reachable_snake_in_board (H W : ℤ) (hH : 6 ≤ H) (hW : 38 ≤ W) (s : GameState)
    (h : Reachable H W s) :
    (∀ p ∈ s.snake, inBoard H W p) ∧ ∀ p : Pos, ¬inBoard H W p → p ∉ s.snake := by
  have main : ∀ p ∈ s.snake, inBoard H W p := by
    induction h with
    | reset t0 rng t hr =>
        obtain ⟨hsn, -, -, -, -⟩ := reset_game_inv hr
        rw [hsn]
        intro p hp
        unfold inBoard
        rcases List.mem_cons.mp hp with rfl | hp2
        · dsimp only
          omega
        rcases List.mem_cons.mp hp2 with rfl | hp3
        · dsimp only
          omega
        obtain rfl := List.mem_singleton.mp hp3
        dsimp only
        omega
    | input t nd ht ih =>
        rw [(handle_input_frame nd t).1]
        exact ih
    | step t rng t' ht hst ih =>
        rcases update_snake_inv hst with ⟨_, hs'⟩ | ⟨_, hs'⟩ |
          ⟨_, _, hb, _, ⟨_, f, _, hs'⟩ | ⟨_, hs'⟩⟩
        · subst hs'
          exact ih
        · subst hs'
          exact ih
        · subst hs'
          intro p hp
          rcases List.mem_cons.mp hp with rfl | hp2
          · exact hb
          · exact ih p hp2
        · subst hs'
          intro p hp
          rcases List.mem_cons.mp ((List.dropLast_sublist _).subset hp) with rfl | hp2
          · exact hb
          · exact ih p hp2
  exact ⟨main, fun p hnp hmem => hnp (main p hmem)⟩

/-- Witness for C10: in the reachable state `sInit` the head cell is on
the 6 × 38 board, and an off-board cell is not on the snake. -/
theorem reachable_snake_in_board_witness :
    inBoard 6 38 ((3 : ℤ), (19 : ℤ)) ∧ ((7 : ℤ), (0 : ℤ)) ∉ sInit.snake := by
  obtain ⟨h1, h2⟩ := reachable_snake_in_board 6 38 (by norm_num) (by norm_num) sInit
    (Reachable.reset s0 [(0, 0)] sInit (by decide))
  exact ⟨h1 (3, 19) (by decide), h2 (7, 0) (by decide)⟩
